import Mathlib

/-!
Verification of the ManagerObjects repository: a three-phase zip pipeline
(unzip to a temp directory, transform each extracted file in place, re-zip
and remove the temp directory), with two transform variants (text
search-and-replace, image rescale to 640x480) and two extension strategies
(inheritance in ZipProcessor.py/ZipReplace.py/ScaleZip.py, composition in
ZipProcessorComposition.py).

The embedding models the on-disk state touched by one run as a `PState`:
the archive file at `self.filename`, the temp directory
`unzipped-<filename>` (absent or a list of extracted entries), and a
counter of `shutil.rmtree` calls (to express "removed exactly once").
File contents are modelled at the abstraction level the transforms see:
text (a list of characters), a raster image (its pixel dimensions), or
undecodable binary data.
-/

set_option autoImplicit false

namespace ManagerObjects

/-! ## Python string semantics: `str.replace`

`contents.replace(search, replace)` performs a global, literal (non-regex),
leftmost, non-overlapping substitution.  With an empty search string Python
inserts `replace` before every character and once more at the end
(`"abc".replace("", "-") == "-a-b-c-"`, `"".replace("", "-") == "-"`).
`pyReplaceAux` is structurally recursive on the string; the `skip`
argument counts characters of an already-replaced match still to be
consumed. -/

/-- Test `beginsWith t s`: true when `t` is an initial segment of `s`
(the test Python's replace performs at each position). -/
def beginsWith : List Char → List Char → Bool
  | [], _ => true
  | _ :: _, [] => false
  | a :: as, b :: bs => a == b && beginsWith as bs

def pyReplaceAux (search repl : List Char) : Nat → List Char → List Char
  | _, [] => if search = [] then repl else []
  | skip + 1, _ :: cs => pyReplaceAux search repl skip cs
  | 0, c :: cs =>
    if search = [] then repl ++ c :: pyReplaceAux search repl 0 cs
    else if beginsWith search (c :: cs) then
      repl ++ pyReplaceAux search repl (search.length - 1) cs
    else c :: pyReplaceAux search repl 0 cs

/-- Model of Python's `s.replace(search, repl)`. -/
def pyReplace (search repl s : List Char) : List Char :=
  pyReplaceAux search repl 0 s


/-! ## Data model: files, the archive, the temp directory

`FileData` captures the three content shapes the transforms distinguish:
text that `open().read()` decodes, an image that `PIL.Image.open` decodes
(only its pixel dimensions matter to the claims), and binary data that
decodes as neither.  The archive slot of the state holds either a valid
zip archive (a list of named entries) or an unreadable non-zip file, or is
absent (missing file).  `rmCount` counts the `shutil.rmtree` calls
performed, so "removed exactly once" is expressible. -/

inductive FileData where
  | text (s : List Char)
  | image (width height : Nat)
  | binary (b : List Nat)
deriving DecidableEq

def isText : FileData → Bool
  | .text _ => true
  | _ => false

def isImage : FileData → Bool
  | .image _ _ => true
  | _ => false

structure Entry where
  name : String
  data : FileData
deriving DecidableEq

inductive DiskFile where
  | zipArchive (entries : List Entry)
  | nonZip (data : FileData)
deriving DecidableEq

structure PState where
  archive : Option DiskFile
  temp : Option (List Entry)
  rmCount : Nat
deriving DecidableEq

inductive TCause where
  | textDecodeFailure
  | imageDecodeFailure
deriving DecidableEq

/-- Error taxonomy of the spec: `archiveUnreadable` stands for the
`zipfile.BadZipFile` / `FileNotFoundError` raised by `unzip_files`,
`transformFailed` for the per-entry exception escaping `process_files`
(it identifies the offending entry and the decode failure that caused it),
`ioError` for operating on a missing temp directory. -/
inductive PipeError where
  | archiveUnreadable
  | transformFailed (entryName : String) (cause : TCause)
  | ioError
deriving DecidableEq

/-- Model of `pathlib.Path.name`: the final path component (the part after the last
directory separator).  `zip_files` passes it as the arcname, flattening
any directory prefix. -/
def baseName (s : String) : String :=
  String.mk (s.data.foldl (fun acc c => if c = '/' then [] else acc ++ [c]) [])

/-- Semantics of `zipfile.ZipFile.extractall` into a directory that may already hold
files: same-named files are overwritten, others survive. -/
def extractInto (old new : List Entry) : List Entry :=
  old.filter (fun e => new.all (fun e2 => e2.name != e.name)) ++ new

/-- Python exception propagation across the three pipeline phases: a phase
runs only when no exception is pending. -/
def seqStep (f : PState → PState × Option PipeError) :
    PState × Option PipeError → PState × Option PipeError
  | (st, none) => f st
  | (st, some e) => (st, some e)

/-! ## ZipProcessor.py (inheritance base class) -/

structure ZipProcessor where
  filename : String

/-- Embedding of `ZipProcessor.unzip_files`: `self.temp_directory.mkdir()` (reusing the
directory with a warning if it already exists), then
`zipfile.ZipFile(self.filename)` / `extractall`.  The temp directory is
created before the archive is opened, so it exists even when opening
fails. -/
def ZipProcessor.unzip_files (_p : ZipProcessor) (st : PState) :
    PState × Option PipeError :=
  match st.archive with
  | some (.zipArchive es) =>
    ({ st with temp := some (extractInto (st.temp.getD []) es) }, none)
  | some (.nonZip _) =>
    ({ st with temp := some (st.temp.getD []) }, some .archiveUnreadable)
  | none =>
    ({ st with temp := some (st.temp.getD []) }, some .archiveUnreadable)

/-- Embedding of `ZipProcessor.zip_files`: `zipfile.ZipFile(self.filename, 'w')`
truncates the archive and writes every child of the temp directory under
its base name (`file.write(str(filename), filename.name)`), then
`shutil.rmtree` removes the temp directory. -/
def ZipProcessor.zip_files (_p : ZipProcessor) (st : PState) :
    PState × Option PipeError :=
  match st.temp with
  | none => (st, some .ioError)
  | some es =>
    ({ st with
        archive := some (.zipArchive (es.map (fun e => ⟨baseName e.name, e.data⟩))),
        temp := none,
        rmCount := st.rmCount + 1 }, none)

/-- Embedding of `ZipProcessor.process_zip`: the three phases
in sequence, with no try/finally; `pf` is the dynamically dispatched
`process_files` of the subclass. -/
def ZipProcessor.process_zip (p : ZipProcessor)
    (pf : PState → PState × Option PipeError) (st : PState) :
    PState × Option PipeError :=
  seqStep (p.zip_files) (seqStep pf (p.unzip_files st))

/-- Shape shared by every `process_files` body: iterate over
`self.temp_directory.iterdir()` applying a per-file action; `loop` returns
the directory contents after the run together with the first failure, if
any (entries before the failing one are already rewritten). -/
def wrapLoop (loop : List Entry → List Entry × Option (String × TCause))
    (st : PState) : PState × Option PipeError :=
  match st.temp with
  | none => (st, some .ioError)
  | some es =>
    let r := loop es
    ({ st with temp := some r.1 },
      r.2.map (fun p => PipeError.transformFailed p.1 p.2))

/-! ## ZipReplace (inheritance subclass, ZipProcessor.py) -/

/-- The `for filename in self.temp_directory.iterdir()` loop of
`ZipReplace.process_files`: read each file as text (failure to decode
raises and aborts the loop with earlier files already rewritten), apply
`str.replace`, write back. -/
def replaceLoop (search repl : List Char) :
    List Entry → List Entry × Option (String × TCause)
  | [] => ([], none)
  | e :: rest =>
    match e.data with
    | .text s =>
      let r := replaceLoop search repl rest
      (⟨e.name, .text (pyReplace search repl s)⟩ :: r.1, r.2)
    | .image _ _ => (e :: rest, some (e.name, .textDecodeFailure))
    | .binary _ => (e :: rest, some (e.name, .textDecodeFailure))

structure ZipReplace extends ZipProcessor where
  search_string : List Char
  replace_string : List Char

def ZipReplace.process_files (z : ZipReplace) :
    PState → PState × Option PipeError :=
  wrapLoop (replaceLoop z.search_string z.replace_string)

def ZipReplace.process_zip (z : ZipReplace) (st : PState) :
    PState × Option PipeError :=
  z.toZipProcessor.process_zip (z.process_files) st

/-! ## ScaleZip (inheritance subclass, ScaleZip.py) -/

/-- The loop of `ScaleZip.process_files`: `Image.open` each file (a file
that is not an image raises, aborting the loop), `resize((640, 480))`
(dimensions forced, aspect ratio not preserved), `save`. -/
def scaleLoop : List Entry → List Entry × Option (String × TCause)
  | [] => ([], none)
  | e :: rest =>
    match e.data with
    | .image _ _ =>
      let r := scaleLoop rest
      (⟨e.name, .image 640 480⟩ :: r.1, r.2)
    | .text _ => (e :: rest, some (e.name, .imageDecodeFailure))
    | .binary _ => (e :: rest, some (e.name, .imageDecodeFailure))

structure ScaleZip extends ZipProcessor

def ScaleZip.process_files (_z : ScaleZip) :
    PState → PState × Option PipeError :=
  wrapLoop scaleLoop

def ScaleZip.process_zip (z : ScaleZip) (st : PState) :
    PState × Option PipeError :=
  z.toZipProcessor.process_zip (z.process_files) st

/-! ## ZipProcessorComposition.py

The composition variant duplicates the pipeline code: its `ZipProcessor`
holds a processor object and calls `self.processor.process_files(self)`
between its own copies of `unzip_files` and `zip_files`; `ZipReplace` and
`ScaleZip` are plain processor classes implementing `process_files`.  The
definitions below mirror that file's (near-identical) code separately so
the equivalence of the two extension strategies is a statement about two
independently embedded pipelines. -/

namespace Composition

structure ZipProcessor where
  filename : String

def ZipProcessor.unzip_files (_p : ZipProcessor) (st : PState) :
    PState × Option PipeError :=
  match st.archive with
  | some (.zipArchive es) =>
    ({ st with temp := some (extractInto (st.temp.getD []) es) }, none)
  | some (.nonZip _) =>
    ({ st with temp := some (st.temp.getD []) }, some .archiveUnreadable)
  | none =>
    ({ st with temp := some (st.temp.getD []) }, some .archiveUnreadable)

def ZipProcessor.zip_files (_p : ZipProcessor) (st : PState) :
    PState × Option PipeError :=
  match st.temp with
  | none => (st, some .ioError)
  | some es =>
    ({ st with
        archive := some (.zipArchive (es.map (fun e => ⟨baseName e.name, e.data⟩))),
        temp := none,
        rmCount := st.rmCount + 1 }, none)

/-- Embedding of `process_zip` of the composition variant: `self.unzip_files()`,
`self.processor.process_files(self)`, `self.zip_files()`. -/
def ZipProcessor.process_zip (p : ZipProcessor)
    (pf : PState → PState × Option PipeError) (st : PState) :
    PState × Option PipeError :=
  seqStep (p.zip_files) (seqStep pf (p.unzip_files st))

structure ZipReplace where
  search_string : List Char
  replace_string : List Char

/-- The loop of the composition file's `ZipReplace.process_files` (same
body as the inheritance subclass, iterating `zipprocessor.temp_directory`). -/
def replaceLoopC (search repl : List Char) :
    List Entry → List Entry × Option (String × TCause)
  | [] => ([], none)
  | e :: rest =>
    match e.data with
    | .text s =>
      let r := replaceLoopC search repl rest
      (⟨e.name, .text (pyReplace search repl s)⟩ :: r.1, r.2)
    | .image _ _ => (e :: rest, some (e.name, .textDecodeFailure))
    | .binary _ => (e :: rest, some (e.name, .textDecodeFailure))

def ZipReplace.process_files (z : ZipReplace) (st : PState) :
    PState × Option PipeError :=
  match st.temp with
  | none => (st, some .ioError)
  | some es =>
    let r := replaceLoopC z.search_string z.replace_string es
    ({ st with temp := some r.1 },
      r.2.map (fun p => PipeError.transformFailed p.1 p.2))

structure ScaleZip where

def scaleLoopC : List Entry → List Entry × Option (String × TCause)
  | [] => ([], none)
  | e :: rest =>
    match e.data with
    | .image _ _ =>
      let r := scaleLoopC rest
      (⟨e.name, .image 640 480⟩ :: r.1, r.2)
    | .text _ => (e :: rest, some (e.name, .imageDecodeFailure))
    | .binary _ => (e :: rest, some (e.name, .imageDecodeFailure))

def ScaleZip.process_files (_z : ScaleZip) (st : PState) :
    PState × Option PipeError :=
  match st.temp with
  | none => (st, some .ioError)
  | some es =>
    let r := scaleLoopC es
    ({ st with temp := some r.1 },
      r.2.map (fun p => PipeError.transformFailed p.1 p.2))

end Composition

/-! ## Properties of the `str.replace` model -/

theorem beginsWith_iff (t : List Char) : ∀ s : List Char,
    beginsWith t s = true ↔ ∃ u, s = t ++ u := by
  induction t with
  | nil =>
    intro s
    simp [beginsWith]
  | cons a as ih =>
    intro s
    cases s with
    | nil =>
      simp [beginsWith]
    | cons b bs =>
      simp only [beginsWith, Bool.and_eq_true, beq_iff_eq, ih bs]
      constructor
      · rintro ⟨rfl, u, rfl⟩
        exact ⟨u, rfl⟩
      · rintro ⟨u, hu⟩
        cases hu
        exact ⟨rfl, u, rfl⟩

theorem pyReplaceAux_skip (search repl : List Char) :
    ∀ l u : List Char,
      pyReplaceAux search repl l.length (l ++ u) = pyReplaceAux search repl 0 u := by
  intro l
  induction l with
  | nil => intro u; rfl
  | cons c l ih =>
    intro u
    simpa [pyReplaceAux] using ih u

/-- Replacing a non-empty string by itself is the identity (on the raw
character list; this is the content-level core of the round-trip claim). -/
theorem pyReplace_self (search : List Char) (hs : search ≠ []) (s : List Char) :
    pyReplace search search s = s := by
  suffices h : ∀ n : Nat, ∀ s : List Char, s.length ≤ n →
      pyReplaceAux search search 0 s = s by
    exact h s.length s le_rfl
  intro n
  induction n with
  | zero =>
    intro s hlen
    have : s = [] := List.length_eq_zero.mp (Nat.le_zero.mp hlen)
    subst this
    simp [pyReplaceAux, hs]
  | succ n ih =>
    intro s hlen
    cases s with
    | nil => simp [pyReplaceAux, hs]
    | cons c cs =>
      by_cases hb : beginsWith search (c :: cs) = true
      · obtain ⟨u, hu⟩ := (beginsWith_iff search (c :: cs)).mp hb
        cases search with
        | nil => exact absurd rfl hs
        | cons a t =>
          have hac : a = c := by
            have := hu
            simp only [List.cons_append] at this
            exact (List.cons.injEq a _ c _ ▸ this.symm) |>.1
          have hcs : cs = t ++ u := by
            have := hu
            simp only [List.cons_append, List.cons.injEq] at this
            exact this.2
          have hlen' : u.length ≤ n := by
            have h1 : cs.length ≤ n := Nat.le_of_succ_le_succ hlen
            have h2 : u.length ≤ cs.length := by
              rw [hcs]
              simp
            omega
          have hskip : (a :: t).length - 1 = t.length := by simp
          calc pyReplaceAux (a :: t) (a :: t) 0 (c :: cs)
              = (a :: t) ++ pyReplaceAux (a :: t) (a :: t) ((a :: t).length - 1) cs := by
                simp [pyReplaceAux, hb]
            _ = (a :: t) ++ pyReplaceAux (a :: t) (a :: t) t.length (t ++ u) := by
                rw [hskip, hcs]
            _ = (a :: t) ++ pyReplaceAux (a :: t) (a :: t) 0 u := by
                rw [pyReplaceAux_skip]
            _ = (a :: t) ++ u := by rw [ih u hlen']
            _ = c :: cs := by rw [hcs, hac]; rfl
      · have hlen' : cs.length ≤ n := Nat.le_of_succ_le_succ hlen
        simp [pyReplaceAux, hs, hb, ih cs hlen']

/-- With an empty search string, Python's replace inserts `repl` before
every character and once at the end. -/
theorem pyReplace_empty_search (repl : List Char) :
    ∀ s : List Char,
      pyReplace [] repl s = repl ++ (s.map (fun c => c :: repl)).flatten := by
  intro s
  induction s with
  | nil => simp [pyReplace, pyReplaceAux]
  | cons c cs ih =>
    simp only [pyReplace, pyReplaceAux] at ih ⊢
    simp [ih]

theorem pyReplace_empty_search_length (repl s : List Char) :
    (pyReplace [] repl s).length = repl.length + s.length * (1 + repl.length) := by
  have h : ∀ t : List Char,
      ((t.map (fun c => c :: repl)).flatten).length = t.length * (1 + repl.length) := by
    intro t
    induction t with
    | nil => simp
    | cons c cs ih =>
      simp only [List.map_cons, List.flatten_cons, List.length_append, List.length_cons, ih]
      ring
  rw [pyReplace_empty_search, List.length_append, h]

example : pyReplace ([] : List Char) ('-' :: []) ('a' :: 'b' :: 'c' :: []) =
    '-' :: 'a' :: '-' :: 'b' :: '-' :: 'c' :: '-' :: [] := by decide

example : pyReplace ('a' :: 'a' :: []) ('a' :: []) ('a' :: 'a' :: 'a' :: []) =
    'a' :: 'a' :: [] := by decide


/-! ## Helper lemmas -/

theorem foldl_baseName_no_slash : ∀ (l acc : List Char), '/' ∉ acc →
    '/' ∉ l.foldl (fun acc c => if c = '/' then [] else acc ++ [c]) acc := by
  intro l
  induction l with
  | nil => intro acc h; simpa using h
  | cons c l ih =>
    intro acc h
    simp only [List.foldl_cons]
    by_cases hc : c = '/'
    · simp only [hc, if_pos rfl]
      exact ih [] (by simp)
    · simp only [if_neg hc]
      refine ih (acc ++ [c]) ?_
      simp [h, Ne.symm hc]

theorem baseName_no_slash (s : String) : '/' ∉ (baseName s).data :=
  foldl_baseName_no_slash s.data [] (by simp)

theorem extractInto_nil (es : List Entry) : extractInto [] es = es := by
  simp [extractInto]

theorem replaceLoop_map_text (search repl : List Char) :
    ∀ ts : List (String × List Char),
      replaceLoop search repl (ts.map (fun p => ⟨p.1, .text p.2⟩))
        = (ts.map (fun p => ⟨p.1, .text (pyReplace search repl p.2)⟩), none) := by
  intro ts
  induction ts with
  | nil => rfl
  | cons t ts ih => simp [replaceLoop, ih]

theorem scaleLoop_map_image :
    ∀ ts : List (String × Nat × Nat),
      scaleLoop (ts.map (fun p => ⟨p.1, .image p.2.1 p.2.2⟩))
        = (ts.map (fun p => ⟨p.1, .image 640 480⟩), none) := by
  intro ts
  induction ts with
  | nil => rfl
  | cons t ts ih => simp [scaleLoop, ih]

theorem replaceLoop_id (search : List Char) (hs : search ≠ []) :
    ∀ es : List Entry, (replaceLoop search search es).1 = es := by
  intro es
  induction es with
  | nil => rfl
  | cons e rest ih =>
    obtain ⟨nm, d⟩ := e
    cases d with
    | text s => simp [replaceLoop, pyReplace_self search hs, ih]
    | image w h => simp [replaceLoop]
    | binary b => simp [replaceLoop]

theorem replaceLoop_first_fail (search repl : List Char) :
    ∀ es : List Entry, (∃ e ∈ es, isText e.data = false) →
      ∃ n, (replaceLoop search repl es).2 = some (n, .textDecodeFailure) ∧
        ∃ e ∈ es, e.name = n ∧ isText e.data = false := by
  intro es
  induction es with
  | nil => rintro ⟨e, he, _⟩; exact absurd he (List.not_mem_nil e)
  | cons e rest ih =>
    rintro ⟨e', he', hbad⟩
    obtain ⟨nm, d⟩ := e
    cases d with
    | text s =>
      have hrest : ∃ x ∈ rest, isText x.data = false := by
        rcases List.mem_cons.mp he' with h | h
        · subst h; simp [isText] at hbad
        · exact ⟨e', h, hbad⟩
      obtain ⟨n, hn, x, hx, hxn, hxbad⟩ := ih hrest
      refine ⟨n, ?_, x, List.mem_cons_of_mem _ hx, hxn, hxbad⟩
      simp [replaceLoop, hn]
    | image w h =>
      exact ⟨nm, by simp [replaceLoop], ⟨nm, .image w h⟩, List.mem_cons_self _ _,
        rfl, by simp [isText]⟩
    | binary b =>
      exact ⟨nm, by simp [replaceLoop], ⟨nm, .binary b⟩, List.mem_cons_self _ _,
        rfl, by simp [isText]⟩

theorem scaleLoop_first_fail :
    ∀ es : List Entry, (∃ e ∈ es, isImage e.data = false) →
      ∃ n, (scaleLoop es).2 = some (n, .imageDecodeFailure) ∧
        ∃ e ∈ es, e.name = n ∧ isImage e.data = false := by
  intro es
  induction es with
  | nil => rintro ⟨e, he, _⟩; exact absurd he (List.not_mem_nil e)
  | cons e rest ih =>
    rintro ⟨e', he', hbad⟩
    obtain ⟨nm, d⟩ := e
    cases d with
    | image w h =>
      have hrest : ∃ x ∈ rest, isImage x.data = false := by
        rcases List.mem_cons.mp he' with h | h
        · subst h; simp [isImage] at hbad
        · exact ⟨e', h, hbad⟩
      obtain ⟨n, hn, x, hx, hxn, hxbad⟩ := ih hrest
      refine ⟨n, ?_, x, List.mem_cons_of_mem _ hx, hxn, hxbad⟩
      simp [scaleLoop, hn]
    | text s =>
      exact ⟨nm, by simp [scaleLoop], ⟨nm, .text s⟩, List.mem_cons_self _ _,
        rfl, by simp [isImage]⟩
    | binary b =>
      exact ⟨nm, by simp [scaleLoop], ⟨nm, .binary b⟩, List.mem_cons_self _ _,
        rfl, by simp [isImage]⟩

/-- Trace of a fully successful run: extract, transform with no failure,
repack (flattening names), remove the temp directory. -/
theorem process_zip_ok (p : ZipProcessor)
    (L : List Entry → List Entry × Option (String × TCause))
    (st : PState) (es : List Entry)
    (ha : st.archive = some (.zipArchive es))
    (hL : (L (extractInto (st.temp.getD []) es)).2 = none) :
    p.process_zip (wrapLoop L) st =
      ({ st with
          archive := some (.zipArchive
            (((L (extractInto (st.temp.getD []) es)).1).map
              (fun e => ⟨baseName e.name, e.data⟩))),
          temp := none,
          rmCount := st.rmCount + 1 }, none) := by
  simp [ZipProcessor.process_zip, ZipProcessor.unzip_files, ZipProcessor.zip_files,
    wrapLoop, seqStep, ha, hL]

/-- Trace of a run whose transform phase fails: the error propagates,
`zip_files` is never reached, the temp directory (with the partially
rewritten contents) is left behind and the archive is untouched. -/
theorem process_zip_fail_transform (p : ZipProcessor)
    (L : List Entry → List Entry × Option (String × TCause))
    (st : PState) (es : List Entry) (n : String) (c : TCause)
    (ha : st.archive = some (.zipArchive es))
    (hL : (L (extractInto (st.temp.getD []) es)).2 = some (n, c)) :
    p.process_zip (wrapLoop L) st =
      ({ st with temp := some ((L (extractInto (st.temp.getD []) es)).1) },
        some (.transformFailed n c)) := by
  simp [ZipProcessor.process_zip, ZipProcessor.unzip_files, ZipProcessor.zip_files,
    wrapLoop, seqStep, ha, hL]

/-- Trace of a run whose extraction fails (missing or unreadable archive):
`mkdir` has already created the temp directory, the error propagates and
nothing removes it. -/
theorem process_zip_fail_unzip (p : ZipProcessor)
    (pf : PState → PState × Option PipeError) (st : PState)
    (h : st.archive = none ∨ ∃ d, st.archive = some (.nonZip d)) :
    p.process_zip pf st =
      ({ st with temp := some (st.temp.getD []) }, some .archiveUnreadable) := by
  rcases h with h | ⟨d, h⟩ <;>
    simp [ZipProcessor.process_zip, ZipProcessor.unzip_files, seqStep, h]

/-! ## Claim C1 (corrected)

The claim says the temp directory is removed exactly once on every path
out of `process_zip`, including failing ones, and is absent after every
run.  The code has no try/finally: `shutil.rmtree` is the last statement
of `zip_files`, so it runs only when all three phases succeed.  On any
failing run the temp directory is left behind and never removed. -/

/-- Claim C1, counterexample: a run over a valid archive holding one
binary (non-text) entry fails in `process_files`, exits with an error, and
leaves the temp directory present with zero `rmtree` calls — the claim
says it should be absent and removed exactly once. -/
theorem C1_counterexample :
    ((ZipReplace.mk ⟨"a.zip"⟩ ('x' :: []) ('y' :: [])).process_zip
        ⟨some (.zipArchive [⟨"f.bin", FileData.binary []⟩]), none, 0⟩).2 ≠ none ∧
    ((ZipReplace.mk ⟨"a.zip"⟩ ('x' :: []) ('y' :: [])).process_zip
        ⟨some (.zipArchive [⟨"f.bin", FileData.binary []⟩]), none, 0⟩).1.temp ≠ none ∧
    ((ZipReplace.mk ⟨"a.zip"⟩ ('x' :: []) ('y' :: [])).process_zip
        ⟨some (.zipArchive [⟨"f.bin", FileData.binary []⟩]), none, 0⟩).1.rmCount = 0 := by
  decide

/-- Claim C1, amended: for every run of `process_zip` (any per-file loop
plugged into `process_files`), the temp directory is removed exactly once
and is absent afterwards when the run succeeds; on every failing run
(extraction or transform error) it is not removed at all and is present
afterwards. -/
theorem C1_cleanup (p : ZipProcessor)
    (L : List Entry → List Entry × Option (String × TCause)) (st : PState) :
    (∀ st', p.process_zip (wrapLoop L) st = (st', none) →
        st'.temp = none ∧ st'.rmCount = st.rmCount + 1) ∧
    (∀ st' e, p.process_zip (wrapLoop L) st = (st', some e) →
        st'.temp ≠ none ∧ st'.rmCount = st.rmCount) := by
  constructor
  · intro st' h
    cases harch : st.archive with
    | none =>
      rw [process_zip_fail_unzip p _ st (Or.inl harch)] at h
      simp at h
    | some df =>
      cases df with
      | nonZip d =>
        rw [process_zip_fail_unzip p _ st (Or.inr ⟨d, harch⟩)] at h
        simp at h
      | zipArchive es =>
        cases hL : (L (extractInto (st.temp.getD []) es)).2 with
        | some pr =>
          obtain ⟨n, c⟩ := pr
          rw [process_zip_fail_transform p L st es n c harch hL] at h
          simp at h
        | none =>
          rw [process_zip_ok p L st es harch hL] at h
          simp only [Prod.mk.injEq] at h
          obtain ⟨h1, -⟩ := h
          rw [← h1]
          exact ⟨rfl, rfl⟩
  · intro st' e h
    cases harch : st.archive with
    | none =>
      rw [process_zip_fail_unzip p _ st (Or.inl harch)] at h
      simp only [Prod.mk.injEq] at h
      obtain ⟨h1, -⟩ := h
      rw [← h1]
      simp
    | some df =>
      cases df with
      | nonZip d =>
        rw [process_zip_fail_unzip p _ st (Or.inr ⟨d, harch⟩)] at h
        simp only [Prod.mk.injEq] at h
        obtain ⟨h1, -⟩ := h
        rw [← h1]
        simp
      | zipArchive es =>
        cases hL : (L (extractInto (st.temp.getD []) es)).2 with
        | some pr =>
          obtain ⟨n, c⟩ := pr
          rw [process_zip_fail_transform p L st es n c harch hL] at h
          simp only [Prod.mk.injEq] at h
          obtain ⟨h1, -⟩ := h
          rw [← h1]
          simp
        | none =>
          rw [process_zip_ok p L st es harch hL] at h
          simp at h

/-- Claim C1, witness: the amended theorem applied to one succeeding run
(temp directory removed, counter goes from 5 to 6) and one failing run
(temp directory still present, counter stays 0). -/
theorem C1_cleanup_witness :
    (((⟨"a.zip"⟩ : ZipProcessor).process_zip
        (wrapLoop (replaceLoop ('x' :: []) ('y' :: [])))
        ⟨some (.zipArchive [⟨"n.txt", FileData.text ('a' :: [])⟩]), none, 5⟩).1.temp = none ∧
      ((⟨"a.zip"⟩ : ZipProcessor).process_zip
        (wrapLoop (replaceLoop ('x' :: []) ('y' :: [])))
        ⟨some (.zipArchive [⟨"n.txt", FileData.text ('a' :: [])⟩]), none, 5⟩).1.rmCount = 5 + 1) ∧
    (((⟨"a.zip"⟩ : ZipProcessor).process_zip
        (wrapLoop (replaceLoop ('x' :: []) ('y' :: [])))
        ⟨some (.zipArchive [⟨"f.bin", FileData.binary []⟩]), none, 0⟩).1.temp ≠ none ∧
      ((⟨"a.zip"⟩ : ZipProcessor).process_zip
        (wrapLoop (replaceLoop ('x' :: []) ('y' :: [])))
        ⟨some (.zipArchive [⟨"f.bin", FileData.binary []⟩]), none, 0⟩).1.rmCount = 0) :=
  ⟨(C1_cleanup ⟨"a.zip"⟩ (replaceLoop ('x' :: []) ('y' :: []))
      ⟨some (.zipArchive [⟨"n.txt", FileData.text ('a' :: [])⟩]), none, 5⟩).1 _ rfl,
    (C1_cleanup ⟨"a.zip"⟩ (replaceLoop ('x' :: []) ('y' :: []))
      ⟨some (.zipArchive [⟨"f.bin", FileData.binary []⟩]), none, 0⟩).2 _ _ rfl⟩

/-! ## Claim C2 (corrected)

`unzip_files` does create the `ArchiveUnreadable`-style failure for a
missing or invalid archive, but `self.temp_directory.mkdir()` runs before
`zipfile.ZipFile(self.filename)` is opened, so the temp directory exists
(and is never removed) after the failure — the claim's "no temporary
working directory exists on disk" is false. -/

/-- Claim C2, counterexample: decoding a missing archive from a clean
state fails with `archiveUnreadable`, yet afterwards the temp directory
exists (empty) — the claim says no temp directory exists. -/
theorem C2_counterexample :
    (ZipProcessor.unzip_files ⟨"missing.zip"⟩ ⟨none, none, 0⟩).2 =
        some .archiveUnreadable ∧
    (ZipProcessor.unzip_files ⟨"missing.zip"⟩ ⟨none, none, 0⟩).1.temp = some [] := by
  decide

/-- Claim C2, amended: for every input that is missing or not a valid zip
archive, `unzip_files` fails with `archiveUnreadable` and does not touch
the archive, but the temp directory — created before the archive is
opened — is present afterwards. -/
theorem C2_unreadable (p : ZipProcessor) (st : PState)
    (h : st.archive = none ∨ ∃ d, st.archive = some (.nonZip d)) :
    p.unzip_files st =
        ({ st with temp := some (st.temp.getD []) }, some .archiveUnreadable) ∧
    (p.unzip_files st).1.temp ≠ none ∧
    (p.unzip_files st).1.archive = st.archive := by
  rcases h with h | ⟨d, h⟩ <;> simp [ZipProcessor.unzip_files, h]

/-- Claim C2, witness: the amended theorem applied to a missing archive
file and a clean state. -/
theorem C2_unreadable_witness :
    (ZipProcessor.unzip_files ⟨"missing.zip"⟩ ⟨none, none, 0⟩ =
        ({ (⟨none, none, 0⟩ : PState) with temp := some ((none : Option (List Entry)).getD []) },
          some .archiveUnreadable)) ∧
    (ZipProcessor.unzip_files ⟨"missing.zip"⟩ ⟨none, none, 0⟩).1.temp ≠ none ∧
    (ZipProcessor.unzip_files ⟨"missing.zip"⟩ ⟨none, none, 0⟩).1.archive =
        (⟨none, none, 0⟩ : PState).archive :=
  C2_unreadable ⟨"missing.zip"⟩ ⟨none, none, 0⟩ (Or.inl rfl)

/-! ## Claim C3 (confirmed) -/

/-- Claim C3: a TextReplace run from a clean state over a flat archive of
text entries succeeds, and afterwards every entry's content is the global
literal (non-regex) substitution of `search` by `repl` — Python's
`str.replace`, modelled by `pyReplace` — while the list of entry names
(hence their set and the entry count) is unchanged.  `hflat` says the
entry names carry no directory component, which is what `iterdir` yields
for an archive of plain files. -/
theorem C3_find_replace (f : String) (search repl : List Char)
    (ts : List (String × List Char)) (st : PState)
    (ha : st.archive = some (.zipArchive (ts.map (fun q => ⟨q.1, .text q.2⟩))))
    (ht : st.temp = none)
    (hflat : ∀ q ∈ ts, baseName q.1 = q.1) :
    (ZipReplace.mk ⟨f⟩ search repl).process_zip st =
      ({ st with
          archive := some (.zipArchive
            (ts.map (fun q => ⟨q.1, .text (pyReplace search repl q.2)⟩))),
          temp := none,
          rmCount := st.rmCount + 1 }, none) ∧
    (ts.map (fun q => (⟨q.1, FileData.text (pyReplace search repl q.2)⟩ : Entry))).map
        Entry.name =
      (ts.map (fun q => (⟨q.1, FileData.text q.2⟩ : Entry))).map Entry.name := by
  constructor
  · have hes : extractInto (st.temp.getD []) (ts.map (fun q => ⟨q.1, .text q.2⟩))
        = ts.map (fun q => ⟨q.1, .text q.2⟩) := by
      rw [ht]
      exact extractInto_nil _
    have hL2 : (replaceLoop search repl
        (extractInto (st.temp.getD []) (ts.map (fun q => ⟨q.1, .text q.2⟩)))).2 = none := by
      rw [hes, replaceLoop_map_text]
    have hL1 : (replaceLoop search repl
        (extractInto (st.temp.getD []) (ts.map (fun q => ⟨q.1, .text q.2⟩)))).1
        = ts.map (fun q => ⟨q.1, .text (pyReplace search repl q.2)⟩) := by
      rw [hes, replaceLoop_map_text]
    have hnames : (ts.map (fun q => (⟨q.1, FileData.text (pyReplace search repl q.2)⟩ :
          Entry))).map (fun e => (⟨baseName e.name, e.data⟩ : Entry))
        = ts.map (fun q => ⟨q.1, .text (pyReplace search repl q.2)⟩) := by
      rw [List.map_map]
      refine List.map_congr_left ?_
      intro q hq
      simp [hflat q hq]
    simp only [ZipReplace.process_zip, ZipReplace.process_files]
    rw [process_zip_ok ⟨f⟩ (replaceLoop search repl) st _ ha hL2, hL1, hnames]
  · simp [List.map_map]

/-- Claim C3, witness: the spec's concrete scenario — an archive with one
entry `note.txt` reading `Hello Maria`, replacing `Maria` by `Mario`. -/
theorem C3_find_replace_witness :
    (ZipReplace.mk ⟨"sample.zip"⟩ (("Maria").toList) (("Mario").toList)).process_zip
        ⟨some (.zipArchive ([(("note.txt"), ("Hello Maria").toList)].map
          (fun q => ⟨q.1, .text q.2⟩))), none, 0⟩ =
      ({ (⟨some (.zipArchive ([(("note.txt"), ("Hello Maria").toList)].map
            (fun q => ⟨q.1, .text q.2⟩))), none, 0⟩ : PState) with
          archive := some (.zipArchive
            ([(("note.txt"), ("Hello Maria").toList)].map
              (fun q => ⟨q.1, .text (pyReplace (("Maria").toList) (("Mario").toList) q.2)⟩))),
          temp := none,
          rmCount := 0 + 1 }, none) ∧
    ([(("note.txt"), ("Hello Maria").toList)].map
        (fun q => (⟨q.1, FileData.text (pyReplace (("Maria").toList) (("Mario").toList) q.2)⟩ :
          Entry))).map Entry.name =
      ([(("note.txt"), ("Hello Maria").toList)].map
        (fun q => (⟨q.1, FileData.text q.2⟩ : Entry))).map Entry.name :=
  C3_find_replace ("sample.zip") (("Maria").toList) (("Mario").toList)
    [(("note.txt"), ("Hello Maria").toList)] _ rfl rfl (by decide)

/-- The witness run indeed rewrites `note.txt` to `Hello Mario`. -/
example : pyReplace (("Maria").toList) (("Mario").toList) (("Hello Maria").toList)
    = ("Hello Mario").toList := by decide

/-! ## Claim C4 (confirmed) -/

/-- Claim C4: an ImageRescale run from a clean state over a flat archive
of decodable images succeeds and every output entry decodes to exactly
640x480 pixels, whatever the original dimensions were (the dimensions
`q.2.1` x `q.2.2` are arbitrary, so the aspect ratio is not preserved —
stretch to fit), with entry names unchanged. -/
theorem C4_image_rescale (f : String)
    (ts : List (String × Nat × Nat)) (st : PState)
    (ha : st.archive = some (.zipArchive (ts.map (fun q => ⟨q.1, .image q.2.1 q.2.2⟩))))
    (ht : st.temp = none)
    (hflat : ∀ q ∈ ts, baseName q.1 = q.1) :
    (ScaleZip.mk ⟨f⟩).process_zip st =
      ({ st with
          archive := some (.zipArchive (ts.map (fun q => ⟨q.1, .image 640 480⟩))),
          temp := none,
          rmCount := st.rmCount + 1 }, none) := by
  have hes : extractInto (st.temp.getD []) (ts.map (fun q => ⟨q.1, .image q.2.1 q.2.2⟩))
      = ts.map (fun q => ⟨q.1, .image q.2.1 q.2.2⟩) := by
    rw [ht]
    exact extractInto_nil _
  have hL2 : (scaleLoop
      (extractInto (st.temp.getD []) (ts.map (fun q => ⟨q.1, .image q.2.1 q.2.2⟩)))).2
      = none := by
    rw [hes, scaleLoop_map_image]
  have hL1 : (scaleLoop
      (extractInto (st.temp.getD []) (ts.map (fun q => ⟨q.1, .image q.2.1 q.2.2⟩)))).1
      = ts.map (fun q => ⟨q.1, .image 640 480⟩) := by
    rw [hes, scaleLoop_map_image]
  have hnames : (ts.map (fun q => (⟨q.1, FileData.image 640 480⟩ : Entry))).map
        (fun e => (⟨baseName e.name, e.data⟩ : Entry))
      = ts.map (fun q => ⟨q.1, .image 640 480⟩) := by
    rw [List.map_map]
    refine List.map_congr_left ?_
    intro q hq
    simp [hflat q hq]
  simp only [ScaleZip.process_zip, ScaleZip.process_files]
  rw [process_zip_ok ⟨f⟩ scaleLoop st _ ha hL2, hL1, hnames]

/-- Claim C4, witness: the spec's scenario — `a.png` at 100x100 and
`b.jpg` at 1920x1080 both come out at 640x480. -/
theorem C4_image_rescale_witness :
    (ScaleZip.mk ⟨"photos.zip"⟩).process_zip
        ⟨some (.zipArchive ([(("a.png"), (100, 100)), (("b.jpg"), (1920, 1080))].map
          (fun q => ⟨q.1, .image q.2.1 q.2.2⟩))), none, 0⟩ =
      ({ (⟨some (.zipArchive ([(("a.png"), (100, 100)), (("b.jpg"), (1920, 1080))].map
            (fun q => ⟨q.1, .image q.2.1 q.2.2⟩))), none, 0⟩ : PState) with
          archive := some (.zipArchive
            ([(("a.png"), ((100 : Nat), (100 : Nat))), (("b.jpg"), (1920, 1080))].map
              (fun q => ⟨q.1, .image 640 480⟩))),
          temp := none,
          rmCount := 0 + 1 }, none) :=
  C4_image_rescale ("photos.zip")
    [(("a.png"), (100, 100)), (("b.jpg"), (1920, 1080))] _ rfl rfl (by decide)

/-! ## Claim C5 (confirmed) -/

/-- Claim C5: for every working area, `zip_files` rewrites the archive
from scratch (open with mode `w` truncates: the result below does not
depend on the previous archive contents) with exactly one member per
current entry, named by the entry's base name (`filename.name`), and no
resulting member name contains a directory separator. -/
theorem C5_zip_files_flat (p : ZipProcessor) (st : PState) (es : List Entry)
    (ht : st.temp = some es) :
    p.zip_files st =
      ({ st with
          archive := some (.zipArchive (es.map (fun e => ⟨baseName e.name, e.data⟩))),
          temp := none,
          rmCount := st.rmCount + 1 }, none) ∧
    ∀ n ∈ (es.map (fun e => (⟨baseName e.name, e.data⟩ : Entry))).map Entry.name,
      '/' ∉ n.data := by
  constructor
  · simp [ZipProcessor.zip_files, ht]
  · intro n hn
    simp only [List.map_map, List.mem_map, Function.comp] at hn
    obtain ⟨e, -, he⟩ := hn
    rw [← he]
    exact baseName_no_slash e.name

/-- Claim C5, witness: the theorem applied to a working area holding an
entry under a nested path; its archive member is the flat base name, and
the prior (non-zip) archive content is discarded. -/
theorem C5_zip_files_flat_witness :
    (ZipProcessor.zip_files ⟨"a.zip"⟩
        ⟨some (.nonZip (.binary [])), some [⟨"dir/inner.txt", FileData.text []⟩], 3⟩ =
      ({ (⟨some (.nonZip (.binary [])), some [⟨"dir/inner.txt", FileData.text []⟩], 3⟩ :
            PState) with
          archive := some (.zipArchive
            (([⟨"dir/inner.txt", FileData.text []⟩] : List Entry).map
              (fun e => ⟨baseName e.name, e.data⟩))),
          temp := none,
          rmCount := 3 + 1 }, none) ∧
      ∀ n ∈ (([⟨"dir/inner.txt", FileData.text []⟩] : List Entry).map
          (fun e => (⟨baseName e.name, e.data⟩ : Entry))).map Entry.name,
        '/' ∉ n.data) ∧
    baseName ("dir/inner.txt") = ("inner.txt") :=
  ⟨C5_zip_files_flat ⟨"a.zip"⟩
      ⟨some (.nonZip (.binary [])), some [⟨"dir/inner.txt", FileData.text []⟩], 3⟩
      [⟨"dir/inner.txt", FileData.text []⟩] rfl,
    by decide⟩

/-! ## Claim C6 (confirmed) -/

/-- Claim C6: for both transform variants, if any extracted entry cannot
be transformed (not decodable as text for `ZipReplace`, not decodable as
an image for `ScaleZip`), the whole run fails with a `transformFailed`
error carrying an offending entry's name and the decoding cause, and the
archive is left untouched (`zip_files` is never reached — no
partial-success outcome). -/
theorem C6_transform_abort (z : ZipReplace) (sz : ScaleZip)
    (st : PState) (es : List Entry)
    (ha : st.archive = some (.zipArchive es)) (ht : st.temp = none) :
    ((∃ e ∈ es, isText e.data = false) →
      ∃ st' n, z.process_zip st = (st', some (.transformFailed n .textDecodeFailure)) ∧
        (∃ e ∈ es, e.name = n ∧ isText e.data = false) ∧
        st'.archive = st.archive) ∧
    ((∃ e ∈ es, isImage e.data = false) →
      ∃ st' n, sz.process_zip st = (st', some (.transformFailed n .imageDecodeFailure)) ∧
        (∃ e ∈ es, e.name = n ∧ isImage e.data = false) ∧
        st'.archive = st.archive) := by
  have hes : extractInto (st.temp.getD []) es = es := by
    rw [ht]
    exact extractInto_nil _
  constructor
  · rintro hbad
    obtain ⟨n, hn, hwit⟩ := replaceLoop_first_fail z.search_string z.replace_string es hbad
    have hL : (replaceLoop z.search_string z.replace_string
        (extractInto (st.temp.getD []) es)).2 = some (n, .textDecodeFailure) := by
      rw [hes]
      exact hn
    have hrun : z.process_zip st =
        ({ st with temp := some ((replaceLoop z.search_string z.replace_string
            (extractInto (st.temp.getD []) es)).1) },
          some (.transformFailed n .textDecodeFailure)) := by
      simp only [ZipReplace.process_zip, ZipReplace.process_files]
      exact process_zip_fail_transform z.toZipProcessor _ st es n _ ha hL
    exact ⟨_, n, hrun, hwit, by simp⟩
  · rintro hbad
    obtain ⟨n, hn, hwit⟩ := scaleLoop_first_fail es hbad
    have hL : (scaleLoop (extractInto (st.temp.getD []) es)).2 =
        some (n, .imageDecodeFailure) := by
      rw [hes]
      exact hn
    have hrun : sz.process_zip st =
        ({ st with temp := some ((scaleLoop (extractInto (st.temp.getD []) es)).1) },
          some (.transformFailed n .imageDecodeFailure)) := by
      simp only [ScaleZip.process_zip, ScaleZip.process_files]
      exact process_zip_fail_transform sz.toZipProcessor _ st es n _ ha hL
    exact ⟨_, n, hrun, hwit, by simp⟩

/-- Claim C6, witness: the theorem applied to an archive holding a single
binary entry, which fails both variants. -/
theorem C6_transform_abort_witness :
    (∃ st' n,
        (ZipReplace.mk ⟨"a.zip"⟩ ('x' :: []) ('y' :: [])).process_zip
            ⟨some (.zipArchive [⟨"f.bin", FileData.binary []⟩]), none, 0⟩ =
          (st', some (.transformFailed n .textDecodeFailure)) ∧
        (∃ e ∈ ([⟨"f.bin", FileData.binary []⟩] : List Entry),
          e.name = n ∧ isText e.data = false) ∧
        st'.archive = (⟨some (.zipArchive [⟨"f.bin", FileData.binary []⟩]), none, 0⟩ :
          PState).archive) ∧
    (∃ st' n,
        (ScaleZip.mk ⟨"b.zip"⟩).process_zip
            ⟨some (.zipArchive [⟨"f.bin", FileData.binary []⟩]), none, 0⟩ =
          (st', some (.transformFailed n .imageDecodeFailure)) ∧
        (∃ e ∈ ([⟨"f.bin", FileData.binary []⟩] : List Entry),
          e.name = n ∧ isImage e.data = false) ∧
        st'.archive = (⟨some (.zipArchive [⟨"f.bin", FileData.binary []⟩]), none, 0⟩ :
          PState).archive) := by
  have h := C6_transform_abort (ZipReplace.mk ⟨"a.zip"⟩ ('x' :: []) ('y' :: []))
    (ScaleZip.mk ⟨"b.zip"⟩)
    ⟨some (.zipArchive [⟨"f.bin", FileData.binary []⟩]), none, 0⟩
    [⟨"f.bin", FileData.binary []⟩] rfl rfl
  exact ⟨h.1 (by decide), h.2 (by decide)⟩

/-! ## Claim C7 (confirmed) -/

/-- Claim C7: neither `unzip_files` (opens the archive read-only) nor a
`process_files` phase (touches only the temp directory) modifies the
archive slot, and every failing run — in this model all failures happen
during extraction or transformation, since repacking is modelled as
infallible — leaves the original archive byte-for-byte unchanged; only
`zip_files` writes the archive. -/
theorem C7_archive_untouched (p : ZipProcessor)
    (L : List Entry → List Entry × Option (String × TCause)) (st : PState) :
    (p.unzip_files st).1.archive = st.archive ∧
    (wrapLoop L st).1.archive = st.archive ∧
    (∀ st' e, p.process_zip (wrapLoop L) st = (st', some e) →
      st'.archive = st.archive) := by
  refine ⟨?_, ?_, ?_⟩
  · cases harch : st.archive with
    | none => simp [ZipProcessor.unzip_files, harch]
    | some df =>
      cases df with
      | zipArchive es => simp [ZipProcessor.unzip_files, harch]
      | nonZip d => simp [ZipProcessor.unzip_files, harch]
  · cases htp : st.temp with
    | none => simp [wrapLoop, htp]
    | some es => simp [wrapLoop, htp]
  · intro st' e h
    cases harch : st.archive with
    | none =>
      rw [process_zip_fail_unzip p _ st (Or.inl harch)] at h
      simp only [Prod.mk.injEq] at h
      obtain ⟨h1, -⟩ := h
      rw [← h1, harch]
    | some df =>
      cases df with
      | nonZip d =>
        rw [process_zip_fail_unzip p _ st (Or.inr ⟨d, harch⟩)] at h
        simp only [Prod.mk.injEq] at h
        obtain ⟨h1, -⟩ := h
        rw [← h1, harch]
      | zipArchive es =>
        cases hL : (L (extractInto (st.temp.getD []) es)).2 with
        | some pr =>
          obtain ⟨n, c⟩ := pr
          rw [process_zip_fail_transform p L st es n c harch hL] at h
          simp only [Prod.mk.injEq] at h
          obtain ⟨h1, -⟩ := h
          rw [← h1, harch]
        | none =>
          rw [process_zip_ok p L st es harch hL] at h
          simp at h

/-- Claim C7, witness: the theorem applied to a run over an unreadable
(non-zip) archive file; the failing run leaves the archive unchanged. -/
theorem C7_archive_untouched_witness :
    (ZipProcessor.unzip_files ⟨"a.zip"⟩
        ⟨some (.nonZip (.binary [])), none, 0⟩).1.archive =
      (⟨some (.nonZip (.binary [])), none, 0⟩ : PState).archive ∧
    (wrapLoop (replaceLoop ('x' :: []) ('y' :: []))
        ⟨some (.nonZip (.binary [])), none, 0⟩).1.archive =
      (⟨some (.nonZip (.binary [])), none, 0⟩ : PState).archive ∧
    (((⟨"a.zip"⟩ : ZipProcessor).process_zip
        (wrapLoop (replaceLoop ('x' :: []) ('y' :: [])))
        ⟨some (.nonZip (.binary [])), none, 0⟩).1.archive =
      (⟨some (.nonZip (.binary [])), none, 0⟩ : PState).archive) :=
  ⟨(C7_archive_untouched ⟨"a.zip"⟩ (replaceLoop ('x' :: []) ('y' :: []))
      ⟨some (.nonZip (.binary [])), none, 0⟩).1,
    (C7_archive_untouched ⟨"a.zip"⟩ (replaceLoop ('x' :: []) ('y' :: []))
      ⟨some (.nonZip (.binary [])), none, 0⟩).2.1,
    (C7_archive_untouched ⟨"a.zip"⟩ (replaceLoop ('x' :: []) ('y' :: []))
      ⟨some (.nonZip (.binary [])), none, 0⟩).2.2 _ _ rfl⟩

/-! ## Claim C8 (confirmed) -/

/-- Claim C8: running the TextReplace transform with the search string
equal to the (non-empty) replace string leaves the state — in particular
every entry's content in the working area — unchanged (Python's
`s.replace(t, t) == s`). -/
theorem C8_search_eq_replace (f : String) (search : List Char)
    (st : PState) (es : List Entry)
    (hs : search ≠ []) (ht : st.temp = some es) :
    ((ZipReplace.mk ⟨f⟩ search search).process_files st).1 = st := by
  obtain ⟨ar, tp, rm⟩ := st
  have ht' : tp = some es := ht
  subst ht'
  simp [ZipReplace.process_files, wrapLoop, replaceLoop_id search hs es]

/-- Claim C8, witness: replacing `Maria` by `Maria` over a working area
holding `note.txt` with content `Hello Maria` changes nothing. -/
theorem C8_search_eq_replace_witness :
    ((ZipReplace.mk ⟨"sample.zip"⟩ (("Maria").toList) (("Maria").toList)).process_files
        ⟨some (.zipArchive []),
          some [⟨"note.txt", FileData.text (("Hello Maria").toList)⟩], 0⟩).1 =
      ⟨some (.zipArchive []),
        some [⟨"note.txt", FileData.text (("Hello Maria").toList)⟩], 0⟩ :=
  C8_search_eq_replace ("sample.zip") (("Maria").toList) _
    [⟨"note.txt", FileData.text (("Hello Maria").toList)⟩] (by decide) rfl

/-! ## Claim C9 (confirmed) -/

theorem replaceLoopC_eq_replaceLoop (search repl : List Char) :
    ∀ es : List Entry,
      Composition.replaceLoopC search repl es = replaceLoop search repl es := by
  intro es
  induction es with
  | nil => rfl
  | cons e rest ih =>
    obtain ⟨nm, d⟩ := e
    cases d <;> simp [Composition.replaceLoopC, replaceLoop, ih]

/-- Claim C9: for every filename, (search, replace) configuration and
starting state, the inheritance-based pipeline (`ZipReplace` subclassing
`ZipProcessor`, ZipProcessor.py) and the composition-based pipeline (a
`ZipReplace` processor object injected into the composition file's
`ZipProcessor`) produce identical results — same final archive contents,
same temp-directory state, same error. -/
theorem C9_inheritance_eq_composition (f : String) (search repl : List Char)
    (st : PState) :
    (ZipReplace.mk ⟨f⟩ search repl).process_zip st =
      (Composition.ZipProcessor.mk f).process_zip
        ((Composition.ZipReplace.mk search repl).process_files) st := by
  have hpf : ∀ st' : PState,
      (Composition.ZipReplace.mk search repl).process_files st' =
        wrapLoop (replaceLoop search repl) st' := by
    intro st'
    cases htp : st'.temp with
    | none => simp [Composition.ZipReplace.process_files, wrapLoop, htp]
    | some es =>
      simp [Composition.ZipReplace.process_files, wrapLoop, htp,
        replaceLoopC_eq_replaceLoop]
  have hu : Composition.ZipProcessor.unzip_files ⟨f⟩ = ZipProcessor.unzip_files ⟨f⟩ := rfl
  have hz : Composition.ZipProcessor.zip_files ⟨f⟩ = ZipProcessor.zip_files ⟨f⟩ := rfl
  simp only [ZipReplace.process_zip, ZipReplace.process_files,
    ZipProcessor.process_zip, Composition.ZipProcessor.process_zip, hu, hz]
  obtain ⟨st1, err1⟩ := ZipProcessor.unzip_files ⟨f⟩ st
  cases err1 with
  | none => simp [seqStep, hpf st1]
  | some e => rfl

/-! ## Claim C10 (corrected)

With an empty search string, `str.replace` inserts the replace string
before every character and once more at the end (n+1 copies for a content
of length n) — but when the replace string is itself empty this inserts
nothing, and the content IS left unchanged, contradicting the claim's
"does not leave the content unchanged". -/

/-- Claim C10, counterexample: a non-empty entry content (`a`, length 1)
run through TextReplace with empty search string and empty replace string
comes out byte-for-byte unchanged, while the claim asserts the content is
never left unchanged. -/
theorem C10_counterexample :
    replaceLoop [] [] [⟨"f.txt", FileData.text ('a' :: [])⟩] =
      ([⟨"f.txt", FileData.text ('a' :: [])⟩], none) := by
  decide

/-- Claim C10, amended: for every non-empty entry content and every
NON-EMPTY replace string, TextReplace with the empty search string does
not leave the content unchanged: it inserts the replace string before
every character and at the end — n+1 inserted copies for length n
(Python's `str.replace` with an empty pattern). -/
theorem C10_empty_search (nm : String) (repl s : List Char)
    (hr : repl ≠ []) (hs : s ≠ []) :
    replaceLoop [] repl [⟨nm, .text s⟩] =
      ([⟨nm, .text (repl ++ (s.map (fun c => c :: repl)).flatten)⟩], none) ∧
    pyReplace [] repl s ≠ s := by
  constructor
  · simp [replaceLoop, pyReplace_empty_search]
  · intro hEq
    have hlen := pyReplace_empty_search_length repl s
    rw [hEq] at hlen
    have hrl : 0 < repl.length := List.length_pos.mpr hr
    have hsl : 0 < s.length := List.length_pos.mpr hs
    have h1 : s.length ≤ s.length * (1 + repl.length) :=
      Nat.le_mul_of_pos_right _ (by omega)
    omega

/-- Claim C10, witness: content `abc` with replace string `-` becomes
`-a-b-c-` (four inserted copies for length three) and differs from the
original. -/
theorem C10_empty_search_witness :
    replaceLoop [] ('-' :: []) [⟨"f.txt", FileData.text (("abc").toList)⟩] =
      ([⟨"f.txt", FileData.text (('-' :: []) ++
        ((("abc").toList).map (fun c => c :: ('-' :: []))).flatten)⟩], none) ∧
    pyReplace [] ('-' :: []) (("abc").toList) ≠ ("abc").toList :=
  C10_empty_search ("f.txt") ('-' :: []) (("abc").toList) (by decide) (by decide)

end ManagerObjects
